import Mathlib

/-!
Verification development for a Swiss clinic directory scraper
(a linear extract-transform-write pipeline: fetch page, locate result
blocks, extract fields per block, accumulate records, write CSV).

The Python source is shallowly embedded: Python strings become `List Char`
at the working level and `String` at the interfaces, the BeautifulSoup
document tree becomes the mutual inductives `Node`/`Forest`, `re.search`
on the postal-code pattern becomes a leftmost-match scanner, `print`
diagnostics become an explicit `List Diag`, the `IndexError` raised by
`CityExtractor` on whitespace-only input becomes `Except PyExc`, and the
`csv` writer/reader pair becomes an explicit encoder and a character
DFA parser.
-/

/-! ### Character-level string utilities (Python `str` semantics) -/

/-- ASCII whitespace, as recognised by Python `str.strip` / `str.split`. -/
def pySpace (c : Char) : Bool :=
  c = ' ' || c = '\t' || c = '\n' || c = '\r' || c = '\x0b' || c = '\x0c'

/-- Python `str.strip()`: drop leading and trailing whitespace. -/
def pyStrip (cs : List Char) : List Char :=
  ((cs.dropWhile pySpace).reverse.dropWhile pySpace).reverse

/-- Accumulator worker for `pyWords`: `acc` is the word currently being
read (always whitespace-free). -/
def wordsAux : List Char → List Char → List (List Char)
  | [], acc => if acc = [] then [] else [acc]
  | c :: rest, acc =>
    if pySpace c then
      if acc = [] then wordsAux rest [] else acc :: wordsAux rest []
    else wordsAux rest (acc ++ [c])

/-- Python `str.split()` with no argument: maximal runs of
non-whitespace characters, in order. -/
def pyWords (cs : List Char) : List (List Char) :=
  wordsAux cs []

/-- Membership test for characters of the word class of the regex
module: letters, digits and underscore (ASCII fragment). -/
def isWordChar (c : Char) : Bool :=
  c.isAlphanum || c = '_'

/-- Check for `sub` appearing at the very front of `s`. -/
def chPre : List Char → List Char → Bool
  | [], _ => true
  | _ :: _, [] => false
  | a :: as, b :: bs => a = b && chPre as bs

/-- Check for `sub` occurring anywhere inside `s`, the semantics of
`re.search` on a literal pattern. -/
def chSub (sub : List Char) : List Char → Bool
  | [] => chPre sub []
  | c :: t => chPre sub (c :: t) || chSub sub t

/-! ### PostalCodeExtractor (src/main.py lines 7-13)

Python: `re.search(r'\b\d\x7b4\x7d\b', address)`, returning the matched
text of the leftmost match or `None`. -/

/-- Boundary condition of `\b` to the left of a digit: start of string
or a preceding non-word character. -/
def boundaryBefore : Option Char → Bool
  | none => true
  | some p => !isWordChar p

/-- Match the body of the pattern at the head of the list: four digits
followed by the end of the string or a non-word character. Returns the
four matched characters. -/
def fourRunAt : List Char → Option (List Char)
  | c1 :: c2 :: c3 :: c4 :: rest =>
    if c1.isDigit && c2.isDigit && c3.isDigit && c4.isDigit &&
        (match rest with | [] => true | n :: _ => !isWordChar n) then
      some [c1, c2, c3, c4]
    else
      none
  | _ => none

/-- Leftmost-match scanner for the pattern: try every start position
from the left, keeping the character just before the current position
for the word-boundary test. -/
def pcSearch : Option Char → List Char → Option (List Char)
  | _, [] => none
  | prev, c :: rest =>
    match (if boundaryBefore prev then fourRunAt (c :: rest) else none) with
    | some t => some t
    | none => pcSearch (some c) rest

namespace PostalCodeExtractor

/-- Embedding of `PostalCodeExtractor.extract`: leftmost standalone run
of exactly four digits (word-boundary delimited), or `none`. -/
def extract (address : String) : Option String :=
  (pcSearch none address.toList).map String.mk

end PostalCodeExtractor

/-! ### CityExtractor (src/main.py lines 16-20)

Python: `address.strip().split()[-1]`. Indexing `[-1]` on the empty
list raises `IndexError`; the embedding returns `none` for exactly that
fault. -/

namespace CityExtractor

/-- Embedding of `CityExtractor.extract`: last whitespace-delimited
token of the stripped string; `none` models the `IndexError` raised
when the stripped string has no token. -/
def extract (address : String) : Option String :=
  ((pyWords (pyStrip address.toList)).getLast?).map String.mk

end CityExtractor

/-! ### Document tree (the BeautifulSoup collaborator)

A parsed HTML document is a forest of nodes; a node is a tag element
with attributes and children, or a bare text node (`NavigableString`).
The mutual inductive keeps all traversals structurally recursive. -/

mutual

inductive Node where
  | text : String → Node
  | elem : String → List (String × String) → Forest → Node

inductive Forest where
  | nil : Forest
  | cons : Node → Forest → Forest

end

/-- Build a forest from a list of sibling nodes. -/
def Forest.ofList : List Node → Forest
  | [] => .nil
  | n :: rest => .cons n (Forest.ofList rest)

/-- First value of an attribute key, Python `tag.attrs.get(key, None)`. -/
def attrLookup : List (String × String) → String → Option String
  | [], _ => none
  | (k, v) :: rest, key => if k = key then some v else attrLookup rest key

/-- Attribute read on a node; text nodes have no attributes. -/
def Node.attrGet : Node → String → Option String
  | .text _, _ => none
  | .elem _ attrs _, key => attrLookup attrs key

mutual

/-- Concatenated text of all string descendants, the `.text` property. -/
def Node.textChars : Node → List Char
  | .text s => s.toList
  | .elem _ _ f => Forest.textChars f

def Forest.textChars : Forest → List Char
  | .nil => []
  | .cons n f => Node.textChars n ++ Forest.textChars f

end

mutual

/-- Nodes of a forest in document (preorder) order. -/
def Forest.nodes : Forest → List Node
  | .nil => []
  | .cons n f => n :: (Node.inside n ++ Forest.nodes f)

/-- Proper descendants of a node in document (preorder) order. -/
def Node.inside : Node → List Node
  | .text _ => []
  | .elem _ _ f => Forest.nodes f

end

mutual

/-- First node of the forest, in document order, satisfying `p`
(the traversal of `soup.find`). -/
def Forest.findF (p : Node → Bool) : Forest → Option Node
  | .nil => none
  | .cons n f =>
    if p n then some n
    else
      match Node.findInside p n with
      | some m => some m
      | none => Forest.findF p f

/-- First proper descendant of the node, in document order,
satisfying `p`. -/
def Node.findInside (p : Node → Bool) : Node → Option Node
  | .text _ => none
  | .elem _ _ f => Forest.findF p f

end

mutual

/-- All nodes of the forest, in document order, satisfying `p`
(the traversal of `soup.find_all`). -/
def Forest.findAllF (p : Node → Bool) : Forest → List Node
  | .nil => []
  | .cons n f =>
    (if p n then [n] else []) ++ Node.findAllInside p n ++ Forest.findAllF p f

/-- All proper descendants of the node, in document order,
satisfying `p`. -/
def Node.findAllInside (p : Node → Bool) : Node → List Node
  | .text _ => []
  | .elem _ _ f => Forest.findAllF p f

end

/-- Embedding of `result.find(tag, attrs)`: search the descendants of
`result` only, in document order. -/
def Node.find (n : Node) (p : Node → Bool) : Option Node :=
  Node.findInside p n

/-- Filter used by `find(tag, attrs with a class marker)`: a tag element
whose multi-valued `class` attribute contains the marker, matching the
whitespace-split class list of BeautifulSoup. -/
def isTagClass (tag cls : String) : Node → Bool
  | .text _ => false
  | .elem t attrs _ =>
    t = tag &&
      (match attrLookup attrs "class" with
       | none => false
       | some v => (pyWords v.toList).any (fun w => w = cls.toList))

/-- Filter used by `find(tag, href compiled-pattern)`: a tag element
whose `href` attribute value contains `sub` as a substring, matching
`re.compile(sub).search(value)` for a literal pattern. -/
def isTagHrefSub (tag sub : String) : Node → Bool
  | .text _ => false
  | .elem t attrs _ =>
    t = tag &&
      (match attrLookup attrs "href" with
       | none => false
       | some v => chSub sub.toList v.toList)

/-! ### Data model: the Record, diagnostics, and the raised fault -/

/-- The Record assembled per result block (the `clinic` dict of the
source). In the source, `city` is always a string when a record exists:
an empty address text raises before the dict is built. -/
structure Clinic where
  name : String
  address : String
  postcode : Option String
  city : String
  phone : Option String
  data_overlay_label : Option String
  website : Option String
deriving DecidableEq, Repr

/-- Diagnostic lines printed to the console, one constructor per
`print` call site of the source. -/
inductive Diag where
  | statusLine (page : Int) (code : Nat)
  | pageFailed (page : Int)
  | noResults (url : String)
  | nameFailed
  | addressFailed
  | completed
deriving DecidableEq, Repr

/-- Unhandled Python faults of the pipeline: the `IndexError` raised by
`CityExtractor.extract` on token-free input. -/
inductive PyExc where
  | indexError
deriving DecidableEq, Repr

deriving instance DecidableEq for Except

/-! ### ClinicExtractor (src/main.py lines 23-58) -/

namespace ClinicExtractor

/-- Embedding of `ClinicExtractor.extract`. Returns the diagnostics it
prints together with `Except.ok (some record)`, `Except.ok none` for a
discarded block, or `Except.error` when city derivation raises. -/
def extract (result : Node) : List Diag × Except PyExc (Option Clinic) :=
  match result.find (isTagClass "h2" "card-info-title") with
  | none => ([Diag.nameFailed], Except.ok none)
  | some nm =>
    match result.find (isTagClass "div" "card-info-address") with
    | none => ([Diag.addressFailed], Except.ok none)
    | some ad =>
      match CityExtractor.extract (String.mk ad.textChars) with
      | none => ([], Except.error PyExc.indexError)
      | some city =>
        ([], Except.ok (some
          { name := String.mk (pyStrip nm.textChars)
            address := String.mk (pyStrip ad.textChars)
            postcode := PostalCodeExtractor.extract (String.mk ad.textChars)
            city := city
            phone := (result.find (isTagHrefSub "a" "tel")).bind (fun t => t.attrGet "href")
            data_overlay_label := (result.find (isTagHrefSub "a" "tel")).bind
              (fun t => t.attrGet "data-overlay-label")
            website := (result.find (isTagHrefSub "a" "http")).bind
              (fun w => w.attrGet "href") }))

end ClinicExtractor

/-! ### Scraper (src/main.py lines 61-94) -/

/-- Run configuration of the orchestrator (constructor arguments). -/
structure Scraper where
  base_url : String
  query : String
  max_pages : Int
deriving DecidableEq, Repr

/-- Result of one HTTP GET as the orchestrator consumes it: the status
code, plus the response body already parsed into a document forest
(the BeautifulSoup step). -/
structure Response where
  status_code : Nat
  doc : Forest

/-- Page URL built by the source's format string:
base, query, then a page-number query parameter. -/
def pageUrl (sc : Scraper) (page : Int) : String :=
  sc.base_url ++ sc.query ++ "?page=" ++ toString page

/-- Page indices of the scan, Python `range(1, max_pages + 1)`. -/
def pageList (max_pages : Int) : List Int :=
  (List.range max_pages.toNat).map (fun i => (i : Int) + 1)

/-- Per-page block loop of `scrape_data`: run the extractor over each
result block, appending extracted records to the accumulator; a raised
fault aborts everything. -/
def processBlocks : List Node → List Clinic → List Diag × Except PyExc (List Clinic)
  | [], acc => ([], Except.ok acc)
  | b :: rest, acc =>
    let e := ClinicExtractor.extract b
    match e.2 with
    | Except.error ex => (e.1, Except.error ex)
    | Except.ok none =>
      let r := processBlocks rest acc
      (e.1 ++ r.1, r.2)
    | Except.ok (some c) =>
      let r := processBlocks rest (acc ++ [c])
      (e.1 ++ r.1, r.2)

/-- Result blocks of a parsed page, the source's
`soup.find_all` on tag `div` with class marker
`js-entry-card-container`. -/
def resultBlocks (doc : Forest) : List Node :=
  Forest.findAllF (isTagClass "div" "js-entry-card-container") doc

/-- Page loop of `scrape_data` over the remaining page indices. -/
def scrapePages (sc : Scraper) (fetch : Int → Response) :
    List Int → List Clinic → List Diag × Except PyExc (List Clinic)
  | [], acc => ([Diag.completed], Except.ok acc)
  | p :: ps, acc =>
    let resp := fetch p
    let tail :=
      if resp.status_code ≠ 200 then
        let r := scrapePages sc fetch ps acc
        (Diag.pageFailed p :: r.1, r.2)
      else
        let results := resultBlocks resp.doc
        if results.isEmpty then
          let r := scrapePages sc fetch ps acc
          (Diag.noResults (pageUrl sc p) :: r.1, r.2)
        else
          let pb := processBlocks results acc
          match pb.2 with
          | Except.error ex => (pb.1, Except.error ex)
          | Except.ok acc2 =>
            let r := scrapePages sc fetch ps acc2
            (pb.1 ++ r.1, r.2)
    (Diag.statusLine p resp.status_code :: tail.1, tail.2)

/-- Embedding of `Scraper.scrape_data`, parameterised by the HTTP
collaborator `fetch`. Returns the printed diagnostics and either the
accumulated record list or the raised fault. -/
def Scraper.scrape_data (sc : Scraper) (fetch : Int → Response) :
    List Diag × Except PyExc (List Clinic) :=
  scrapePages sc fetch (pageList sc.max_pages) []

/-- Page indices actually fetched, read off from the status-code lines
(one `print` per issued request, before any branching). -/
def visitedPages (ds : List Diag) : List Int :=
  ds.filterMap (fun d => match d with | Diag.statusLine p _ => some p | _ => none)

/-! ### CSV output (src/main.py lines 105-112)

Model of the `csv` collaborator in its default dialect, as used by the
source: `DictWriter` with the seven field names, `QUOTE_MINIMAL`
quoting (a field is quoted when it contains the delimiter, the quote
character or a line-terminator character, with quotes doubled), CRLF
row terminator, and `None` written as an empty cell. The reader is a
character DFA with the matching semantics on well-formed files. -/

/-- Quote decision of `QUOTE_MINIMAL`. -/
def needsQuote (f : List Char) : Bool :=
  f.any (fun c => c = ',' || c = '"' || c = '\r' || c = '\n')

/-- Double every quote character of a quoted field body. -/
def escQuo : List Char → List Char
  | [] => []
  | c :: rest => if c = '"' then '"' :: '"' :: escQuo rest else c :: escQuo rest

/-- Serialize one field. -/
def encodeField (f : String) : List Char :=
  if needsQuote f.toList then '"' :: (escQuo f.toList ++ ['"']) else f.toList

/-- Interleave the comma delimiter between encoded fields. -/
def joinComma : List (List Char) → List Char
  | [] => []
  | [f] => f
  | f :: g :: rest => f ++ ',' :: joinComma (g :: rest)

/-- Serialize one row, terminated by CRLF. -/
def encodeRow (r : List String) : List Char :=
  joinComma (r.map encodeField) ++ ['\r', '\n']

/-- Serialize a whole file. -/
def writeCSV (rows : List (List String)) : String :=
  String.mk ((rows.map encodeRow).flatten)

/-- Parser state: start of field, inside an unquoted field, inside a
quoted field, just after a quote inside a quoted field, or just after a
carriage return (awaiting the optional line feed). -/
inductive CState where
  | sf | unq | quo | quoQ | nl
deriving DecidableEq, Repr

/-- Character DFA of the CSV reader. Arguments: state, remaining input,
current field, fields of the current row, finished rows. -/
def parseAux : CState → List Char → List Char → List String → List (List String) → List (List String)
  | .sf, [], fAcc, rAcc, rows =>
    if rAcc.isEmpty then rows else rows ++ [rAcc ++ [String.mk fAcc]]
  | .sf, c :: rest, fAcc, rAcc, rows =>
    if c = '"' then parseAux .quo rest fAcc rAcc rows
    else if c = ',' then parseAux .sf rest [] (rAcc ++ [String.mk fAcc]) rows
    else if c = '\r' then parseAux .nl rest [] [] (rows ++ [rAcc ++ [String.mk fAcc]])
    else if c = '\n' then parseAux .sf rest [] [] (rows ++ [rAcc ++ [String.mk fAcc]])
    else parseAux .unq rest (fAcc ++ [c]) rAcc rows
  | .unq, [], fAcc, rAcc, rows => rows ++ [rAcc ++ [String.mk fAcc]]
  | .unq, c :: rest, fAcc, rAcc, rows =>
    if c = ',' then parseAux .sf rest [] (rAcc ++ [String.mk fAcc]) rows
    else if c = '\r' then parseAux .nl rest [] [] (rows ++ [rAcc ++ [String.mk fAcc]])
    else if c = '\n' then parseAux .sf rest [] [] (rows ++ [rAcc ++ [String.mk fAcc]])
    else parseAux .unq rest (fAcc ++ [c]) rAcc rows
  | .quo, [], fAcc, rAcc, rows => rows ++ [rAcc ++ [String.mk fAcc]]
  | .quo, c :: rest, fAcc, rAcc, rows =>
    if c = '"' then parseAux .quoQ rest fAcc rAcc rows
    else parseAux .quo rest (fAcc ++ [c]) rAcc rows
  | .quoQ, [], fAcc, rAcc, rows => rows ++ [rAcc ++ [String.mk fAcc]]
  | .quoQ, c :: rest, fAcc, rAcc, rows =>
    if c = '"' then parseAux .quo rest (fAcc ++ ['"']) rAcc rows
    else if c = ',' then parseAux .sf rest [] (rAcc ++ [String.mk fAcc]) rows
    else if c = '\r' then parseAux .nl rest [] [] (rows ++ [rAcc ++ [String.mk fAcc]])
    else if c = '\n' then parseAux .sf rest [] [] (rows ++ [rAcc ++ [String.mk fAcc]])
    else parseAux .unq rest (fAcc ++ [c]) rAcc rows
  | .nl, [], _, _, rows => rows
  | .nl, c :: rest, _, _, rows =>
    if c = '\n' then parseAux .sf rest [] [] rows
    else if c = '"' then parseAux .quo rest [] [] rows
    else if c = ',' then parseAux .sf rest [] [""] rows
    else if c = '\r' then parseAux .nl rest [] [] (rows ++ [[""]])
    else parseAux .unq rest [c] [] rows

/-- Read back a CSV file as its list of rows. -/
def parseCSV (s : String) : List (List String) :=
  parseAux .sf s.toList [] [] []

/-- Header row written by `writer.writeheader()`: the seven field names
in declaration order. -/
def csvHeader : List String :=
  ["name", "address", "postcode", "city", "phone", "data_overlay_label", "website"]

/-- Row written for one Record by `writer.writerow(clinic)`: field
values in header order, absent (`None`) fields as empty cells. -/
def clinicRow (c : Clinic) : List String :=
  [c.name, c.address, c.postcode.getD "", c.city, c.phone.getD "",
   c.data_overlay_label.getD "", c.website.getD ""]

/-- Whole output file for an accumulated record list: header row, then
one row per record. -/
def writeRecords (cs : List Clinic) : String :=
  writeCSV (csvHeader :: cs.map clinicRow)

/-! ### Spec-side characterizations of the postal-code contract -/

/-- Position-based test: the pattern body matches at position `i` of
`cs`, with `prev` standing for the character before the whole list.
Boundary characters are word characters (letters, digits, underscore). -/
def runAtW (prev : Option Char) (cs : List Char) (i : Nat) : Bool :=
  (match i with
   | 0 => boundaryBefore prev
   | Nat.succ j => match cs[j]? with | some p => !isWordChar p | none => true) &&
  (fourRunAt (cs.drop i)).isSome

/-- Modelled from the spec's words, as amended: the first position
holding a standalone run of exactly four digits bounded by non-word
characters or the string edges, returning that four-character
substring. Stated by searching positions from the left, independently
of the scanner of the source embedding. -/
def pcSpecWord (s : String) : Option String :=
  ((List.range s.toList.length).find? (runAtW none s.toList)).map
    (fun i => String.mk ((s.toList.drop i).take 4))

/-- Position-based test written from the claim verbatim: four digits at
`i` bounded by non-digit characters or the string edges. -/
def runAtD (cs : List Char) (i : Nat) : Bool :=
  (match i with
   | 0 => true
   | Nat.succ j => match cs[j]? with | some p => !p.isDigit | none => true) &&
  (match cs.drop i with
   | c1 :: c2 :: c3 :: c4 :: rest =>
     c1.isDigit && c2.isDigit && c3.isDigit && c4.isDigit &&
       (match rest with | [] => true | n :: _ => !n.isDigit)
   | _ => false)

/-- The claim as frozen: first run of exactly four digits bounded by
non-digit characters or the string edges. -/
def pcSpecDigit (s : String) : Option String :=
  ((List.range s.toList.length).find? (runAtD s.toList)).map
    (fun i => String.mk ((s.toList.drop i).take 4))

/-! ### Spec-side characterization of the city contract -/

/-- Modelled from the spec's words: the last whitespace-delimited token
of a character list, computed from the right end (the reversed leading
token of the reversal), independently of the left-to-right word
splitting of the source embedding. -/
def lastTok (cs : List Char) : List Char :=
  ((cs.reverse.dropWhile pySpace).takeWhile (fun c => !pySpace c)).reverse

/-! ### Derived per-page observables (for the discovery-order statement) -/

/-- Record produced by one block, absent when the block is discarded;
a raising block also contributes nothing (the run dies instead). -/
def blockRecord (b : Node) : Option Clinic :=
  match (ClinicExtractor.extract b).2 with
  | Except.ok r => r
  | Except.error _ => none

/-- Records contributed by one page index: none for a failed fetch,
otherwise the extracted records of its result blocks in block order. -/
def pageRecords (fetch : Int → Response) (p : Int) : List Clinic :=
  if (fetch p).status_code ≠ 200 then []
  else (resultBlocks (fetch p).doc).filterMap blockRecord

/-! ### Concrete blocks and page sequences used as test inputs -/

/-- Fully populated sample result block: title, address with postal
code and city, telephone anchor with overlay label, website anchor. -/
def sampleBlock : Node :=
  Node.elem "div" [("class", "js-entry-card-container")] (Forest.ofList
    [ Node.elem "h2" [("class", "card-info-title")] (Forest.ofList [Node.text " Clinic One "])
    , Node.elem "div" [("class", "card-info-address")] (Forest.ofList
        [Node.text " Road 1, 8001 Zurich "])
    , Node.elem "a" [("href", "tel:+41 11 111 11 11"), ("data-overlay-label", "Call")]
        (Forest.ofList [Node.text "call"])
    , Node.elem "a" [("href", "http://clinic.example")] (Forest.ofList [Node.text "web"]) ])

/-- Record extracted from `sampleBlock`. -/
def sampleClinic : Clinic :=
  { name := "Clinic One", address := "Road 1, 8001 Zurich", postcode := some "8001"
    city := "Zurich", phone := some "tel:+41 11 111 11 11"
    data_overlay_label := some "Call", website := some "http://clinic.example" }

/-- Result block whose title element is present but empty of text,
with a normal address: the extractor does not check text emptiness. -/
def emptyTitleBlock : Node :=
  Node.elem "div" [("class", "js-entry-card-container")] (Forest.ofList
    [ Node.elem "h2" [("class", "card-info-title")] Forest.nil
    , Node.elem "div" [("class", "card-info-address")] (Forest.ofList [Node.text "Bern"]) ])

/-- Result block whose only anchor has an href that merely contains
"http" in the middle (a redirect-style link, not an `http…`-led URL). -/
def embeddedHttpBlock : Node :=
  Node.elem "div" [("class", "js-entry-card-container")] (Forest.ofList
    [ Node.elem "h2" [("class", "card-info-title")] (Forest.ofList [Node.text "T"])
    , Node.elem "div" [("class", "card-info-address")] (Forest.ofList [Node.text "Bern"])
    , Node.elem "a" [("href", "/go?u=http://x.example")] (Forest.ofList [Node.text "share"]) ])

/-- Result block whose only anchor has href `"hotelz"`: it contains the
letters `tel` but no `tel:` scheme. -/
def hotelBlock : Node :=
  Node.elem "div" [("class", "js-entry-card-container")] (Forest.ofList
    [ Node.elem "h2" [("class", "card-info-title")] (Forest.ofList [Node.text "T"])
    , Node.elem "div" [("class", "card-info-address")] (Forest.ofList [Node.text "Bern"])
    , Node.elem "a" [("href", "hotelz")] (Forest.ofList [Node.text "lodging"]) ])

/-- Result block with a title but no address element at all. -/
def titleOnlyBlock : Node :=
  Node.elem "div" [("class", "js-entry-card-container")] (Forest.ofList
    [ Node.elem "h2" [("class", "card-info-title")] (Forest.ofList [Node.text "T"]) ])

/-- Result block with an address element but no title element. -/
def noTitleBlock : Node :=
  Node.elem "div" [("class", "js-entry-card-container")] (Forest.ofList
    [ Node.elem "div" [("class", "card-info-address")] (Forest.ofList [Node.text "Bern"]) ])

/-- Result block with title present and an address element whose text
is whitespace-only: city derivation raises on it. -/
def emptyAddressBlock : Node :=
  Node.elem "div" [("class", "js-entry-card-container")] (Forest.ofList
    [ Node.elem "h2" [("class", "card-info-title")] (Forest.ofList [Node.text "T"])
    , Node.elem "div" [("class", "card-info-address")] (Forest.ofList [Node.text "  "]) ])

/-- Second valid sample block, to make per-page order observable. -/
def sampleBlock2 : Node :=
  Node.elem "div" [("class", "js-entry-card-container")] (Forest.ofList
    [ Node.elem "h2" [("class", "card-info-title")] (Forest.ofList [Node.text "Clinic Two"])
    , Node.elem "div" [("class", "card-info-address")] (Forest.ofList
        [Node.text "Road 2, 3011 Bern"]) ])

/-- Record extracted from `sampleBlock2`. -/
def sampleClinic2 : Clinic :=
  { name := "Clinic Two", address := "Road 2, 3011 Bern", postcode := some "3011"
    city := "Bern", phone := none, data_overlay_label := none, website := none }

/-- Record extracted from `emptyTitleBlock`: its name is empty. -/
def emptyTitleClinic : Clinic :=
  { name := "", address := "Bern", postcode := none, city := "Bern"
    phone := none, data_overlay_label := none, website := none }

/-- Record extracted from `embeddedHttpBlock`. -/
def embeddedHttpClinic : Clinic :=
  { name := "T", address := "Bern", postcode := none, city := "Bern"
    phone := none, data_overlay_label := none, website := some "/go?u=http://x.example" }

/-- Record extracted from `hotelBlock`. -/
def hotelClinic : Clinic :=
  { name := "T", address := "Bern", postcode := none, city := "Bern"
    phone := some "hotelz", data_overlay_label := none, website := none }

/-- Page sequence of the C7 scenario: page 1 fails with status 500,
page 2 succeeds with two valid blocks, page 3 succeeds with no result
blocks. -/
def fetch123 : Int → Response := fun p =>
  if p = 1 then ⟨500, Forest.nil⟩
  else if p = 2 then ⟨200, Forest.ofList [sampleBlock, sampleBlock2]⟩
  else ⟨200, Forest.ofList [Node.elem "div" [] Forest.nil]⟩

/-- Page sequence whose first page holds a block with whitespace-only
address text: extraction raises there. -/
def fetchCrash : Int → Response := fun _ =>
  ⟨200, Forest.ofList [emptyAddressBlock]⟩

/-! ## Supporting lemmas: postal-code scanner vs position search -/

theorem fourRunAt_eq_take {cs t : List Char} (h : fourRunAt cs = some t) :
    t = cs.take 4 := by
  cases cs with
  | nil => simp [fourRunAt] at h
  | cons c1 cs1 =>
  cases cs1 with
  | nil => simp [fourRunAt] at h
  | cons c2 cs2 =>
  cases cs2 with
  | nil => simp [fourRunAt] at h
  | cons c3 cs3 =>
  cases cs3 with
  | nil => simp [fourRunAt] at h
  | cons c4 rest =>
    simp only [fourRunAt] at h
    split at h
    · injection h with h2
      rw [← h2]
      rfl
    · exact absurd h (by simp)

theorem runAtW_succ (prev : Option Char) (c : Char) (rest : List Char) (j : Nat) :
    runAtW prev (c :: rest) (j + 1) = runAtW (some c) rest j := by
  cases j with
  | zero => simp [runAtW, boundaryBefore]
  | succ k => simp [runAtW]

theorem pcSearch_eq_find (cs : List Char) : ∀ prev,
    pcSearch prev cs =
      ((List.range cs.length).find? (runAtW prev cs)).map (fun i => (cs.drop i).take 4) := by
  induction cs with
  | nil => intro prev; simp [pcSearch]
  | cons c rest ih =>
    intro prev
    by_cases h0 : runAtW prev (c :: rest) 0 = true
    · have hsplit := h0
      unfold runAtW at hsplit
      rw [Bool.and_eq_true] at hsplit
      obtain ⟨hb, hs⟩ := hsplit
      rw [List.drop_zero] at hs
      have hb2 : boundaryBefore prev = true := hb
      obtain ⟨t, ht⟩ := Option.isSome_iff_exists.mp hs
      have hl : pcSearch prev (c :: rest) = some t := by
        simp only [pcSearch, hb2, ht, if_true]
      rw [hl, fourRunAt_eq_take ht, List.length_cons, List.range_succ_eq_map,
        List.find?_cons_of_pos _ h0]
      simp
    · have hnone : (if boundaryBefore prev then fourRunAt (c :: rest) else none) = none := by
        by_cases hb : boundaryBefore prev = true
        · rw [if_pos hb]
          cases hfr : fourRunAt (c :: rest) with
          | none => rfl
          | some t =>
            exact absurd (by simp [runAtW, hfr, hb]) h0
        · rw [if_neg (by simpa using hb)]
      have hl : pcSearch prev (c :: rest) = pcSearch (some c) rest := by
        simp only [pcSearch, hnone]
      have hp : (runAtW prev (c :: rest)) ∘ (· + 1) = runAtW (some c) rest := by
        funext j
        simp [Function.comp, runAtW_succ]
      rw [hl, ih (some c), List.length_cons, List.range_succ_eq_map,
        List.find?_cons_of_neg _ h0, List.find?_map, hp]
      cases (List.range rest.length).find? (runAtW (some c) rest) with
      | none => rfl
      | some j => simp

/-! ## Claim C2 -/

/-- C2, amended: for every text string, `PostalCodeExtractor.extract`
returns the first substring that is a run of exactly four digits
bounded by non-word characters (letters, digits and underscore are word
characters) or the string edges, and returns `none` when no such run
exists; later matches are ignored and no normalization is performed.
The frozen claim's boundary condition ("non-digit characters") is
refuted by `C2_counterexample`. -/
theorem C2_first_word_bounded_digit_run (s : String) :
    PostalCodeExtractor.extract s = pcSpecWord s := by
  unfold PostalCodeExtractor.extract pcSpecWord
  rw [pcSearch_eq_find]
  cases (List.range s.toList.length).find? (runAtW none s.toList) with
  | none => rfl
  | some i => rfl

/-- C2 counterexample: in `"a1234"` the digit run `1234` is bounded by
the non-digit `a` and the string edge, so the claim as frozen demands
the match `"1234"`, but the code's word-boundary pattern finds
nothing (`a` is a word character). -/
theorem C2_counterexample :
    pcSpecDigit "a1234" = some "1234" ∧ PostalCodeExtractor.extract "a1234" = none := by
  decide

/-! ## Supporting lemmas: word splitting vs the last token -/

theorem dropWhile_eq_self_of_not {α : Type} {p : α → Bool} :
    ∀ l : List α, (∀ a ∈ l, p a = false) → l.dropWhile p = l := by
  intro l h
  cases l with
  | nil => rfl
  | cons a l => simp [List.dropWhile, h a (by simp)]

theorem takeWhile_eq_self_of_all {α : Type} {p : α → Bool} :
    ∀ l : List α, (∀ a ∈ l, p a = true) → l.takeWhile p = l := by
  intro l
  induction l with
  | nil => intro _; rfl
  | cons a l ih =>
    intro h
    simp [List.takeWhile, h a (by simp), ih (fun b hb => h b (by simp [hb]))]

theorem dropWhile_append_not_all {α : Type} {p : α → Bool} :
    ∀ l1 l2 : List α, l1.any (fun a => !p a) → (l1 ++ l2).dropWhile p = l1.dropWhile p ++ l2 := by
  intro l1
  induction l1 with
  | nil => intro l2 h; simp at h
  | cons a l ih =>
    intro l2 h
    by_cases ha : p a = true
    · simp only [List.cons_append, List.dropWhile_cons, ha, if_true]
      apply ih
      simp only [List.any_cons, ha] at h
      simpa using h
    · simp [List.dropWhile_cons, ha]

theorem dropWhile_append_all {α : Type} {p : α → Bool} :
    ∀ l1 l2 : List α, (∀ a ∈ l1, p a = true) → (l1 ++ l2).dropWhile p = l2.dropWhile p := by
  intro l1
  induction l1 with
  | nil => intro l2 _; rfl
  | cons a l ih =>
    intro l2 h
    simp only [List.cons_append, List.dropWhile_cons, h a (by simp), if_true]
    exact ih l2 (fun b hb => h b (by simp [hb]))

theorem takeWhile_append_stop {α : Type} {q : α → Bool} :
    ∀ (l1 l2 : List α) (c : α), q c = false → (l1 ++ c :: l2).takeWhile q = l1.takeWhile q := by
  intro l1
  induction l1 with
  | nil => intro l2 c hc; simp [List.takeWhile, hc]
  | cons a l ih =>
    intro l2 c hc
    by_cases ha : q a = true
    · simp [List.takeWhile_cons, ha, ih l2 c hc]
    · simp [List.takeWhile_cons, ha]

theorem wordsAux_ne_nil : ∀ (cs acc : List Char), acc ≠ [] → wordsAux cs acc ≠ [] := by
  intro cs
  induction cs with
  | nil => intro acc h; simpa [wordsAux] using h
  | cons c cs ih =>
    intro acc h
    by_cases hc : pySpace c = true
    · simp only [wordsAux, hc, if_true, if_neg h]
      simp
    · simp only [wordsAux, hc, if_false]
      exact ih (acc ++ [c]) (by simp)

theorem pyWords_eq_nil_iff : ∀ cs : List Char, (pyWords cs = [] ↔ cs.all pySpace = true) := by
  intro cs
  unfold pyWords
  induction cs with
  | nil => simp [wordsAux]
  | cons c cs ih =>
    by_cases hc : pySpace c = true
    · simp only [wordsAux, hc, if_true, List.all_cons, Bool.true_and]
      simpa using ih
    · simp only [wordsAux, hc, if_false, List.all_cons, Bool.false_and]
      constructor
      · intro h
        exact absurd h (wordsAux_ne_nil cs [c] (by simp))
      · intro h
        exact absurd h (by simp)

theorem lastTok_of_all_not {l : List Char} (h : ∀ c ∈ l, pySpace c = false) :
    lastTok l = l := by
  unfold lastTok
  rw [dropWhile_eq_self_of_not l.reverse (fun a ha => h a (List.mem_reverse.mp ha)),
    takeWhile_eq_self_of_all l.reverse
      (fun a ha => by simp [h a (List.mem_reverse.mp ha)]),
    List.reverse_reverse]

theorem any_not_of_all_false {l : List Char} (h : l.all pySpace = false) :
    l.reverse.any (fun a => !pySpace a) = true := by
  rw [List.any_eq_true]
  rw [List.all_eq_false] at h
  obtain ⟨x, hx, hpx⟩ := h
  exact ⟨x, List.mem_reverse.mpr hx, by simp [hpx]⟩

theorem lastTok_append_space_not_all (acc : List Char) (c : Char) (cs : List Char)
    (hc : pySpace c = true) (h : cs.all pySpace = false) :
    lastTok (acc ++ c :: cs) = lastTok cs := by
  rw [show acc ++ c :: cs = (acc ++ [c]) ++ cs by simp]
  unfold lastTok
  rw [List.reverse_append, dropWhile_append_not_all _ _ (any_not_of_all_false h),
    List.reverse_append]
  rw [show ([c].reverse ++ acc.reverse) = c :: acc.reverse by simp]
  rw [takeWhile_append_stop _ _ c (by simp [hc])]

theorem lastTok_append_space_all (acc : List Char) (c : Char) (cs : List Char)
    (hacc : ∀ a ∈ acc, pySpace a = false) (hc : pySpace c = true)
    (h : ∀ a ∈ cs, pySpace a = true) :
    lastTok (acc ++ c :: cs) = acc := by
  unfold lastTok
  rw [List.reverse_append]
  rw [show (c :: cs).reverse = cs.reverse ++ [c] by simp]
  rw [List.append_assoc]
  rw [dropWhile_append_all _ _ (fun a ha => h a (List.mem_reverse.mp ha))]
  rw [show ([c] ++ acc.reverse).dropWhile pySpace = acc.reverse.dropWhile pySpace by
    simp [List.dropWhile, hc]]
  rw [dropWhile_eq_self_of_not acc.reverse (fun a ha => hacc a (List.mem_reverse.mp ha)),
    takeWhile_eq_self_of_all acc.reverse
      (fun a ha => by simp [hacc a (List.mem_reverse.mp ha)]),
    List.reverse_reverse]

theorem wordsAux_getLast (cs : List Char) : ∀ acc : List Char,
    (∀ c ∈ acc, pySpace c = false) →
    (wordsAux cs acc).getLast? =
      if (acc ++ cs).all pySpace = true then none else some (lastTok (acc ++ cs)) := by
  induction cs with
  | nil =>
    intro acc hacc
    cases acc with
    | nil => simp [wordsAux]
    | cons a as =>
      simp only [wordsAux, List.append_nil]
      rw [if_neg (by simp), if_neg (by simp [hacc a (by simp)])]
      simp [lastTok_of_all_not hacc]
  | cons c cs ih =>
    intro acc hacc
    by_cases hc : pySpace c = true
    · cases acc with
      | nil =>
        simp only [wordsAux, hc, if_true, if_pos rfl]
        rw [ih [] (by simp)]
        simp only [List.nil_append, List.all_cons, hc, Bool.true_and]
        by_cases hall : cs.all pySpace = true
        · rw [if_pos hall, if_pos hall]
        · rw [if_neg hall, if_neg hall,
            show (c :: cs) = [] ++ c :: cs by simp,
            lastTok_append_space_not_all [] c cs hc (by simpa using hall)]
      | cons a as =>
        simp only [wordsAux, hc, if_true, if_neg (by simp : ¬(a :: as = []))]
        have hach : pySpace a = false := hacc a (by simp)
        rw [if_neg (by simp [hach])]
        by_cases hall : cs.all pySpace = true
        · have hnil : wordsAux cs [] = [] := (pyWords_eq_nil_iff cs).mpr hall
          rw [hnil]
          rw [lastTok_append_space_all (a :: as) c cs hacc hc
            (fun x hx => by
              rw [List.all_eq_true] at hall
              exact hall x hx)]
          simp
        · have hnil : wordsAux cs [] ≠ [] := fun h => hall ((pyWords_eq_nil_iff cs).mp h)
          obtain ⟨x, xs, hxx⟩ := List.exists_cons_of_ne_nil hnil
          rw [hxx, List.getLast?_cons_cons, ← hxx]
          have := ih [] (by simp)
          simp only [List.nil_append] at this
          rw [show wordsAux cs [] = pyWords cs from rfl] at this ⊢
          rw [this, if_neg hall,
            lastTok_append_space_not_all (a :: as) c cs hc (by simpa using hall)]
    · simp only [wordsAux, hc, if_false]
      rw [if_neg (by simp)]
      rw [ih (acc ++ [c])
        (fun x hx => by
          rcases List.mem_append.mp hx with h1 | h2
          · exact hacc x h1
          · simp only [List.mem_singleton] at h2
            subst h2
            simpa using hc)]
      rw [List.append_assoc, List.singleton_append]

theorem pyWords_getLast (cs : List Char) :
    (pyWords cs).getLast? =
      if cs.all pySpace = true then none else some (lastTok cs) := by
  have := wordsAux_getLast cs [] (by simp)
  simpa [pyWords] using this

theorem dropWhile_head_false {α : Type} {p : α → Bool} :
    ∀ (l : List α) (x : α) (xs : List α), l.dropWhile p = x :: xs → p x = false := by
  intro l
  induction l with
  | nil => intro x xs h; simp [List.dropWhile] at h
  | cons a l ih =>
    intro x xs h
    by_cases ha : p a = true
    · rw [List.dropWhile_cons, if_pos ha] at h
      exact ih x xs h
    · rw [List.dropWhile_cons, if_neg ha] at h
      cases h
      simpa using ha

theorem pyStrip_all_false (cs : List Char) (h : pyStrip cs ≠ []) :
    (pyStrip cs).all pySpace = false := by
  unfold pyStrip at h ⊢
  have hX : (cs.dropWhile pySpace).reverse.dropWhile pySpace ≠ [] := by
    intro hn
    exact h (by rw [hn]; rfl)
  obtain ⟨x, xs, hxx⟩ := List.exists_cons_of_ne_nil hX
  rw [hxx]
  have hx : pySpace x = false := dropWhile_head_false _ x xs hxx
  rw [List.all_reverse, List.all_cons, hx, Bool.false_and]

/-! ## Claim C5 -/

/-- C5: for every text string whose whitespace-trimmed form is
non-empty, `CityExtractor.extract` returns the last
whitespace-delimited token of the trimmed string (`lastTok`, the
spec-side characterization); for a string whose trimmed form is empty
it raises an index error (embedded as `none`) rather than returning a
value. -/
theorem C5_city_last_token (s : String) :
    (pyStrip s.toList ≠ [] →
      CityExtractor.extract s = some (String.mk (lastTok (pyStrip s.toList)))) ∧
    (pyStrip s.toList = [] → CityExtractor.extract s = none) := by
  constructor
  · intro h
    unfold CityExtractor.extract
    rw [pyWords_getLast,
      if_neg (by rw [pyStrip_all_false s.toList h]; exact Bool.false_ne_true)]
    rfl
  · intro h
    unfold CityExtractor.extract
    rw [h]
    rfl

/-- C5 witness: the spec's own example address has a non-empty trimmed
form and its extracted city is the last token. -/
theorem C5_witness :
    pyStrip ("Bahnhofstrasse 5, 8001 Zurich").toList ≠ [] ∧
    CityExtractor.extract "Bahnhofstrasse 5, 8001 Zurich" =
      some (String.mk (lastTok (pyStrip ("Bahnhofstrasse 5, 8001 Zurich").toList))) :=
  ⟨by decide, (C5_city_last_token "Bahnhofstrasse 5, 8001 Zurich").1 (by decide)⟩

/-! ## Supporting lemmas: document-order traversal and substring tests -/

mutual

theorem Forest.findF_eq_nodes (p : Node → Bool) :
    (f : Forest) → Forest.findF p f = (Forest.nodes f).find? p
  | .nil => rfl
  | .cons n f => by
    have hn := Node.findInside_eq_inside p n
    have hf := Forest.findF_eq_nodes p f
    by_cases hp : p n = true
    · simp only [Forest.findF, Forest.nodes, hp, if_true]
      rw [List.find?_cons_of_pos _ hp]
    · simp only [Forest.findF, Forest.nodes, hp, if_false]
      rw [List.find?_cons_of_neg _ hp, List.find?_append, hn, hf]
      cases (Node.inside n).find? p with
      | none => rfl
      | some m => rfl

theorem Node.findInside_eq_inside (p : Node → Bool) :
    (n : Node) → Node.findInside p n = (Node.inside n).find? p
  | .text _ => rfl
  | .elem _ _ f => Forest.findF_eq_nodes p f

end

theorem Node.find_eq_inside (n : Node) (p : Node → Bool) :
    Node.find n p = (Node.inside n).find? p :=
  Node.findInside_eq_inside p n

theorem chPre_iff (sub : List Char) : ∀ s : List Char,
    (chPre sub s = true ↔ ∃ suf, s = sub ++ suf) := by
  induction sub with
  | nil =>
    intro s
    simp only [chPre, List.nil_append]
    exact ⟨fun _ => ⟨s, rfl⟩, fun _ => trivial⟩
  | cons a as ih =>
    intro s
    cases s with
    | nil =>
      simp only [chPre]
      constructor
      · intro h
        exact absurd h (by simp)
      · intro ⟨suf, hsuf⟩
        exact absurd hsuf (by simp)
    | cons b bs =>
      simp only [chPre, Bool.and_eq_true, decide_eq_true_eq, ih bs]
      constructor
      · intro ⟨hab, suf, hsuf⟩
        exact ⟨suf, by rw [hab, hsuf]; rfl⟩
      · intro ⟨suf, hsuf⟩
        rw [List.cons_append] at hsuf
        injection hsuf with h1 h2
        exact ⟨h1.symm, suf, h2⟩

theorem chSub_iff (sub : List Char) : ∀ s : List Char,
    (chSub sub s = true ↔ ∃ pre suf, s = pre ++ sub ++ suf) := by
  intro s
  induction s with
  | nil =>
    simp only [chSub, chPre_iff]
    constructor
    · intro ⟨suf, hsuf⟩
      exact ⟨[], suf, by simpa using hsuf⟩
    · intro ⟨pre, suf, hsuf⟩
      rw [List.append_assoc] at hsuf
      obtain ⟨h1, h2⟩ := List.append_eq_nil.mp hsuf.symm
      exact ⟨suf, by rw [h1] at hsuf; simpa using hsuf⟩
  | cons c t ih =>
    simp only [chSub, Bool.or_eq_true, chPre_iff, ih]
    constructor
    · intro h
      rcases h with ⟨suf, hsuf⟩ | ⟨pre, suf, hsuf⟩
      · exact ⟨[], suf, by simpa using hsuf⟩
      · exact ⟨c :: pre, suf, by simp [hsuf]⟩
    · intro ⟨pre, suf, hsuf⟩
      cases pre with
      | nil =>
        exact Or.inl ⟨suf, by simpa using hsuf⟩
      | cons c2 pre2 =>
        rw [List.cons_append, List.cons_append] at hsuf
        injection hsuf with h1 h2
        exact Or.inr ⟨pre2, suf, h2⟩

/-! ## Supporting lemmas: shape of a successful extraction -/

theorem extract_ok_elim {b : Node} {ds : List Diag} {c : Clinic}
    (h : ClinicExtractor.extract b = (ds, Except.ok (some c))) :
    ∃ nm ad city,
      Node.find b (isTagClass "h2" "card-info-title") = some nm ∧
      Node.find b (isTagClass "div" "card-info-address") = some ad ∧
      CityExtractor.extract (String.mk (Node.textChars ad)) = some city ∧
      ds = [] ∧
      c = { name := String.mk (pyStrip (Node.textChars nm))
            address := String.mk (pyStrip (Node.textChars ad))
            postcode := PostalCodeExtractor.extract (String.mk (Node.textChars ad))
            city := city
            phone := (Node.find b (isTagHrefSub "a" "tel")).bind (fun t => t.attrGet "href")
            data_overlay_label := (Node.find b (isTagHrefSub "a" "tel")).bind
              (fun t => t.attrGet "data-overlay-label")
            website := (Node.find b (isTagHrefSub "a" "http")).bind
              (fun w => w.attrGet "href") } := by
  unfold ClinicExtractor.extract at h
  split at h
  · exact absurd h (by simp)
  rename_i nm hnm
  split at h
  · exact absurd h (by simp)
  rename_i ad had
  split at h
  · exact absurd h (by simp)
  rename_i city hcity
  have hds := congrArg Prod.fst h
  have hcc := congrArg Prod.snd h
  simp only [Except.ok.injEq, Option.some.injEq] at hcc
  exact ⟨nm, ad, city, hnm, had, hcity, hds.symm, hcc.symm⟩

theorem isTagHrefSub_iff (tag sub : String) (n : Node) :
    isTagHrefSub tag sub n = true ↔
      ∃ attrs f v pre suf, n = Node.elem tag attrs f ∧
        attrLookup attrs "href" = some v ∧
        v.toList = pre ++ sub.toList ++ suf := by
  cases n with
  | text s =>
    simp only [isTagHrefSub]
    constructor
    · intro h
      exact absurd h (by simp)
    · intro ⟨attrs, f, v, pre, suf, hn, _⟩
      exact absurd hn (by simp)
  | elem t attrs f =>
    simp only [isTagHrefSub, Bool.and_eq_true, decide_eq_true_eq]
    constructor
    · intro ⟨ht, hmatch⟩
      cases hv : attrLookup attrs "href" with
      | none => rw [hv] at hmatch; exact absurd hmatch (by simp)
      | some v =>
        rw [hv] at hmatch
        obtain ⟨pre, suf, hps⟩ := (chSub_iff sub.toList v.toList).mp hmatch
        exact ⟨attrs, f, v, pre, suf, by rw [ht], hv, by rw [hps, List.append_assoc]⟩
    · intro ⟨attrs2, f2, v, pre, suf, hn, hv, hps⟩
      injection hn with h1 h2 h3
      subst h1 h2 h3
      refine ⟨rfl, ?_⟩
      rw [hv]
      exact (chSub_iff sub.toList v.toList).mpr ⟨pre, suf, by rw [hps, List.append_assoc]⟩

/-! ## Claim C1 -/

/-- C1, amended: a Record is returned only when both the title element
and the address element are present, with the name and address fields
equal to the stripped element texts; the address field of any returned
Record is non-empty (a whitespace-only address text raises the city
IndexError before the Record is built), but emptiness of the texts is
not itself checked, so the name field may be the empty string (see
`C1_counterexample`). -/
theorem C1_required_fields (b : Node) (ds : List Diag) (c : Clinic)
    (h : ClinicExtractor.extract b = (ds, Except.ok (some c))) :
    (∃ nm, Node.find b (isTagClass "h2" "card-info-title") = some nm ∧
      c.name = String.mk (pyStrip (Node.textChars nm))) ∧
    (∃ ad, Node.find b (isTagClass "div" "card-info-address") = some ad ∧
      c.address = String.mk (pyStrip (Node.textChars ad))) ∧
    c.address ≠ "" := by
  obtain ⟨nm, ad, city, hnm, had, hcity, hds, hc⟩ := extract_ok_elim h
  subst hc
  refine ⟨⟨nm, hnm, rfl⟩, ⟨ad, had, rfl⟩, ?_⟩
  intro hemp
  have hnil : pyStrip (Node.textChars ad) = [] := by
    have h2 := congrArg String.toList hemp
    simpa using h2
  have h3 : CityExtractor.extract (String.mk (Node.textChars ad)) = none := by
    unfold CityExtractor.extract
    rw [show (String.mk (Node.textChars ad)).toList = Node.textChars ad from rfl, hnil]
    rfl
  rw [h3] at hcity
  exact absurd hcity (by simp)

/-- C1 counterexample: a block whose title element exists but has no
text produces a Record whose name is the empty string; the claim's
requirement that such a block be discarded before a Record is
constructed fails on the code, which only checks element presence. -/
theorem C1_counterexample :
    ClinicExtractor.extract emptyTitleBlock = ([], Except.ok (some emptyTitleClinic)) ∧
    emptyTitleClinic.name = "" :=
  ⟨by rfl, rfl⟩

/-- C1 witness: the fully populated sample block satisfies the
hypothesis of `C1_required_fields` and its Record has the promised
non-empty address. -/
theorem C1_witness :
    ClinicExtractor.extract sampleBlock = ([], Except.ok (some sampleClinic)) ∧
    sampleClinic.address ≠ "" :=
  ⟨by rfl, (C1_required_fields sampleBlock [] sampleClinic (by rfl)).2.2⟩

/-! ## Claim C3 -/

/-- C3, amended: an anchor qualifies as the website anchor exactly when
its href value CONTAINS the substring "http" anywhere (not only when it
starts with "http"); the first qualifying anchor in document order is
used, the Record's website field equals its href value, and the field
is absent when no anchor qualifies. The "starts with http" reading of
the frozen claim is refuted by `C3_counterexample`. -/
theorem C3_website_anchor (b : Node) (ds : List Diag) (c : Clinic)
    (h : ClinicExtractor.extract b = (ds, Except.ok (some c))) :
    (∀ n, isTagHrefSub "a" "http" n = true ↔
      ∃ attrs f v pre suf, n = Node.elem "a" attrs f ∧
        attrLookup attrs "href" = some v ∧
        v.toList = pre ++ ("http".toList) ++ suf) ∧
    c.website = ((Node.inside b).find? (isTagHrefSub "a" "http")).bind
      (fun w => w.attrGet "href") := by
  refine ⟨fun n => isTagHrefSub_iff "a" "http" n, ?_⟩
  obtain ⟨nm, ad, city, hnm, had, hcity, hds, hc⟩ := extract_ok_elim h
  subst hc
  simp only
  rw [← Node.find_eq_inside]

/-- C3 counterexample: an anchor whose href is
`"/go?u=http://x.example"` does not start with "http", yet the code
selects it as the website anchor and stores that href in the Record. -/
theorem C3_counterexample :
    ClinicExtractor.extract embeddedHttpBlock = ([], Except.ok (some embeddedHttpClinic)) ∧
    embeddedHttpClinic.website = some "/go?u=http://x.example" ∧
    chPre ("http".toList) ("/go?u=http://x.example".toList) = false :=
  ⟨by rfl, rfl, by decide⟩

/-- C3 witness: the sample block's website field equals the href of the
first anchor, in document order, whose href contains "http". -/
theorem C3_witness :
    ClinicExtractor.extract sampleBlock = ([], Except.ok (some sampleClinic)) ∧
    sampleClinic.website = ((Node.inside sampleBlock).find? (isTagHrefSub "a" "http")).bind
      (fun w => w.attrGet "href") :=
  ⟨by rfl, (C3_website_anchor sampleBlock [] sampleClinic (by rfl)).2⟩

/-! ## Claim C4 -/

/-- C4, amended: the telephone anchor is the first anchor in document
order whose href value CONTAINS the substring "tel" anywhere (the
pattern is `tel`, not `tel:`, so `"hotelz"` also matches, see
`C4_counterexample`); when none is present both phone and
data_overlay_label are absent, and when one is present phone is its raw
href value and data_overlay_label is its `data-overlay-label` attribute
when present, else absent. -/
theorem C4_telephone_anchor (b : Node) (ds : List Diag) (c : Clinic)
    (h : ClinicExtractor.extract b = (ds, Except.ok (some c))) :
    (∀ n, isTagHrefSub "a" "tel" n = true ↔
      ∃ attrs f v pre suf, n = Node.elem "a" attrs f ∧
        attrLookup attrs "href" = some v ∧
        v.toList = pre ++ ("tel".toList) ++ suf) ∧
    c.phone = ((Node.inside b).find? (isTagHrefSub "a" "tel")).bind
      (fun t => t.attrGet "href") ∧
    c.data_overlay_label = ((Node.inside b).find? (isTagHrefSub "a" "tel")).bind
      (fun t => t.attrGet "data-overlay-label") ∧
    ((Node.inside b).find? (isTagHrefSub "a" "tel") = none →
      c.phone = none ∧ c.data_overlay_label = none) := by
  obtain ⟨nm, ad, city, hnm, had, hcity, hds, hc⟩ := extract_ok_elim h
  subst hc
  refine ⟨fun n => isTagHrefSub_iff "a" "tel" n, ?_, ?_, ?_⟩
  · simp only
    rw [← Node.find_eq_inside]
  · simp only
    rw [← Node.find_eq_inside]
  · intro hnone
    rw [← Node.find_eq_inside] at hnone
    simp only [hnone]
    exact ⟨rfl, rfl⟩

/-- C4 counterexample: an anchor with href `"hotelz"` contains no
`tel:` scheme, yet the code selects it as the telephone anchor and the
Record's phone field becomes `"hotelz"`. -/
theorem C4_counterexample :
    ClinicExtractor.extract hotelBlock = ([], Except.ok (some hotelClinic)) ∧
    hotelClinic.phone = some "hotelz" ∧
    chSub ("tel:".toList) ("hotelz".toList) = false :=
  ⟨by rfl, rfl, by decide⟩

/-- C4 witness: the sample block's phone and overlay-label fields come
from the first anchor whose href contains "tel". -/
theorem C4_witness :
    ClinicExtractor.extract sampleBlock = ([], Except.ok (some sampleClinic)) ∧
    sampleClinic.phone = ((Node.inside sampleBlock).find? (isTagHrefSub "a" "tel")).bind
      (fun t => t.attrGet "href") ∧
    sampleClinic.data_overlay_label =
      ((Node.inside sampleBlock).find? (isTagHrefSub "a" "tel")).bind
        (fun t => t.attrGet "data-overlay-label") :=
  ⟨by rfl, (C4_telephone_anchor sampleBlock [] sampleClinic (by rfl)).2.1,
    (C4_telephone_anchor sampleBlock [] sampleClinic (by rfl)).2.2.1⟩

/-! ## Claim C6 -/

/-- C6: for every result block missing its title element,
`ClinicExtractor.extract` returns absent with exactly the one
name-failure diagnostic, and the per-page block loop appends nothing to
the accumulator for that block while continuing with the remaining
blocks. -/
theorem C6_missing_title (b : Node)
    (h : Node.find b (isTagClass "h2" "card-info-title") = none) :
    ClinicExtractor.extract b = ([Diag.nameFailed], Except.ok none) ∧
    (∀ (rest : List Node) (acc : List Clinic),
      processBlocks (b :: rest) acc =
        (Diag.nameFailed :: (processBlocks rest acc).1, (processBlocks rest acc).2)) := by
  have he : ClinicExtractor.extract b = ([Diag.nameFailed], Except.ok none) := by
    unfold ClinicExtractor.extract
    rw [h]
  refine ⟨he, fun rest acc => ?_⟩
  simp only [processBlocks, he, List.singleton_append]

/-- C6 witness: a concrete title-less block inside a two-block page
yields one diagnostic and leaves the accumulator for the remaining
block untouched. -/
theorem C6_witness :
    Node.find noTitleBlock (isTagClass "h2" "card-info-title") = none ∧
    ClinicExtractor.extract noTitleBlock = ([Diag.nameFailed], Except.ok none) ∧
    processBlocks [noTitleBlock, sampleBlock] [] =
      (Diag.nameFailed :: (processBlocks [sampleBlock] []).1,
        (processBlocks [sampleBlock] []).2) :=
  ⟨by rfl, (C6_missing_title noTitleBlock (by rfl)).1,
    (C6_missing_title noTitleBlock (by rfl)).2 [sampleBlock] []⟩

/-! ## Supporting lemmas: one step of the page loop -/

theorem scrapePages_nil (sc : Scraper) (fetch : Int → Response) (acc : List Clinic) :
    scrapePages sc fetch [] acc = ([Diag.completed], Except.ok acc) := rfl

theorem scrapePages_cons_fail (sc : Scraper) (fetch : Int → Response)
    (p : Int) (ps : List Int) (acc : List Clinic)
    (h : (fetch p).status_code ≠ 200) :
    scrapePages sc fetch (p :: ps) acc =
      (Diag.statusLine p (fetch p).status_code :: Diag.pageFailed p ::
        (scrapePages sc fetch ps acc).1,
       (scrapePages sc fetch ps acc).2) := by
  simp only [scrapePages, if_pos h]

theorem scrapePages_cons_empty (sc : Scraper) (fetch : Int → Response)
    (p : Int) (ps : List Int) (acc : List Clinic)
    (h200 : (fetch p).status_code = 200)
    (hres : resultBlocks (fetch p).doc = []) :
    scrapePages sc fetch (p :: ps) acc =
      (Diag.statusLine p (fetch p).status_code :: Diag.noResults (pageUrl sc p) ::
        (scrapePages sc fetch ps acc).1,
       (scrapePages sc fetch ps acc).2) := by
  simp only [scrapePages, h200, ne_eq, not_true_eq_false, if_false, hres,
    List.isEmpty_nil, if_true]

theorem scrapePages_cons_blocks (sc : Scraper) (fetch : Int → Response)
    (p : Int) (ps : List Int) (acc acc2 : List Clinic)
    (h200 : (fetch p).status_code = 200)
    (hne : (resultBlocks (fetch p).doc).isEmpty = false)
    (hpb : (processBlocks (resultBlocks (fetch p).doc) acc).2 = Except.ok acc2) :
    scrapePages sc fetch (p :: ps) acc =
      (Diag.statusLine p (fetch p).status_code ::
        ((processBlocks (resultBlocks (fetch p).doc) acc).1 ++
          (scrapePages sc fetch ps acc2).1),
       (scrapePages sc fetch ps acc2).2) := by
  simp only [scrapePages, h200, ne_eq, not_true_eq_false, if_false, hne,
    Bool.false_eq_true, hpb]

theorem scrapePages_cons_err (sc : Scraper) (fetch : Int → Response)
    (p : Int) (ps : List Int) (acc : List Clinic) (ex : PyExc)
    (h200 : (fetch p).status_code = 200)
    (hne : (resultBlocks (fetch p).doc).isEmpty = false)
    (hpb : (processBlocks (resultBlocks (fetch p).doc) acc).2 = Except.error ex) :
    scrapePages sc fetch (p :: ps) acc =
      (Diag.statusLine p (fetch p).status_code ::
        (processBlocks (resultBlocks (fetch p).doc) acc).1,
       Except.error ex) := by
  simp only [scrapePages, h200, ne_eq, not_true_eq_false, if_false, hne,
    Bool.false_eq_true, hpb]

/-! ## Claim C7 -/

/-- C7: for a page sequence where page 1 returns a non-success status,
page 2 succeeds with two valid result blocks and page 3 succeeds with
zero result blocks, `scrape_data` returns exactly the two Records of
page 2; the diagnostics hold the failure line for page 1 and the
no-results line for page 3, every page is fetched exactly once with no
retry, and skipped pages just advance the scan. -/
theorem C7_mixed_page_sequence (sc : Scraper) (fetch : Int → Response)
    (b1 b2 : Node) (c1 c2 : Clinic)
    (hm : sc.max_pages = 3)
    (h1 : (fetch 1).status_code ≠ 200)
    (h2 : (fetch 2).status_code = 200)
    (hb : resultBlocks (fetch 2).doc = [b1, b2])
    (he1 : ClinicExtractor.extract b1 = ([], Except.ok (some c1)))
    (he2 : ClinicExtractor.extract b2 = ([], Except.ok (some c2)))
    (h3 : (fetch 3).status_code = 200)
    (hb3 : resultBlocks (fetch 3).doc = []) :
    sc.scrape_data fetch =
      ([Diag.statusLine 1 (fetch 1).status_code, Diag.pageFailed 1,
        Diag.statusLine 2 200, Diag.statusLine 3 200,
        Diag.noResults (pageUrl sc 3), Diag.completed],
       Except.ok [c1, c2]) := by
  have hpb : processBlocks (resultBlocks (fetch 2).doc) [] =
      ([], Except.ok [c1, c2]) := by
    rw [hb]
    simp only [processBlocks, he1, he2, List.nil_append, List.append_nil]
    rfl
  unfold Scraper.scrape_data
  rw [hm, show pageList 3 = [1, 2, 3] from by rfl]
  rw [scrapePages_cons_fail sc fetch 1 [2, 3] [] h1,
    scrapePages_cons_blocks sc fetch 2 [3] [] [c1, c2] h2 (by rw [hb]; rfl)
      (by rw [hpb]),
    scrapePages_cons_empty sc fetch 3 [] [c1, c2] h3 hb3,
    scrapePages_nil, hpb, h2, h3]
  rfl

/-- C7 witness: the concrete three-page sequence `fetch123` produces
exactly the two sample Records of page 2 and the expected diagnostic
lines. -/
theorem C7_witness :
    (Scraper.mk "https://www.local.ch/en/q/" "Switzerland/clinique" 3).scrape_data fetch123 =
      ([Diag.statusLine 1 500, Diag.pageFailed 1,
        Diag.statusLine 2 200, Diag.statusLine 3 200,
        Diag.noResults (pageUrl (Scraper.mk "https://www.local.ch/en/q/" "Switzerland/clinique" 3) 3),
        Diag.completed],
       Except.ok [sampleClinic, sampleClinic2]) :=
  C7_mixed_page_sequence _ fetch123 sampleBlock sampleBlock2 sampleClinic sampleClinic2
    rfl (by decide) rfl (by rfl) (by rfl) (by rfl) rfl (by rfl)

/-! ## Supporting lemmas: the accumulator under a fault-free run -/

theorem extract_fst_cases (b : Node) :
    (ClinicExtractor.extract b).1 = [] ∨
    (ClinicExtractor.extract b).1 = [Diag.nameFailed] ∨
    (ClinicExtractor.extract b).1 = [Diag.addressFailed] := by
  unfold ClinicExtractor.extract
  split
  · right; left; rfl
  split
  · right; right; rfl
  split
  · left; rfl
  · left; rfl

theorem visitedPages_append (l1 l2 : List Diag) :
    visitedPages (l1 ++ l2) = visitedPages l1 ++ visitedPages l2 :=
  List.filterMap_append l1 l2 _

theorem visitedPages_extract (b : Node) :
    visitedPages (ClinicExtractor.extract b).1 = [] := by
  rcases extract_fst_cases b with h | h | h <;> rw [h] <;> rfl

theorem processBlocks_visited : ∀ (blocks : List Node) (acc : List Clinic),
    visitedPages (processBlocks blocks acc).1 = [] := by
  intro blocks
  induction blocks with
  | nil => intro acc; rfl
  | cons b rest ih =>
    intro acc
    cases he : (ClinicExtractor.extract b).2 with
    | error ex =>
      simp only [processBlocks, he]
      exact visitedPages_extract b
    | ok r =>
      cases r with
      | none =>
        simp only [processBlocks, he, visitedPages_append, visitedPages_extract b, ih,
          List.nil_append]
      | some c =>
        simp only [processBlocks, he, visitedPages_append, visitedPages_extract b, ih,
          List.nil_append]

theorem processBlocks_ok : ∀ (blocks : List Node) (acc : List Clinic),
    (∀ b ∈ blocks, (ClinicExtractor.extract b).2 ≠ Except.error PyExc.indexError) →
    (processBlocks blocks acc).2 = Except.ok (acc ++ blocks.filterMap blockRecord) := by
  intro blocks
  induction blocks with
  | nil => intro acc _; simp [processBlocks]
  | cons b rest ih =>
    intro acc h
    cases he : (ClinicExtractor.extract b).2 with
    | error ex =>
      cases ex
      exact absurd he (h b (by simp))
    | ok r =>
      have hbr : blockRecord b = r := by
        unfold blockRecord
        rw [he]
      cases r with
      | none =>
        simp only [processBlocks, he, List.filterMap_cons, hbr]
        exact ih acc (fun x hx => h x (by simp [hx]))
      | some c =>
        simp only [processBlocks, he, List.filterMap_cons, hbr]
        rw [ih (acc ++ [c]) (fun x hx => h x (by simp [hx]))]
        simp

theorem scrapePages_ok (sc : Scraper) (fetch : Int → Response) : ∀ (ps : List Int) (acc : List Clinic),
    (∀ p ∈ ps, (fetch p).status_code = 200 →
      ∀ b ∈ resultBlocks (fetch p).doc,
        (ClinicExtractor.extract b).2 ≠ Except.error PyExc.indexError) →
    (scrapePages sc fetch ps acc).2 =
      Except.ok (acc ++ (ps.map (pageRecords fetch)).flatten) ∧
    visitedPages (scrapePages sc fetch ps acc).1 = ps := by
  intro ps
  induction ps with
  | nil =>
    intro acc _
    exact ⟨by simp [scrapePages_nil], rfl⟩
  | cons p ps ih =>
    intro acc h
    have hrest : ∀ q ∈ ps, (fetch q).status_code = 200 →
        ∀ b ∈ resultBlocks (fetch q).doc,
          (ClinicExtractor.extract b).2 ≠ Except.error PyExc.indexError :=
      fun q hq => h q (List.mem_cons_of_mem p hq)
    by_cases hs : (fetch p).status_code = 200
    · by_cases hres : resultBlocks (fetch p).doc = []
      · rw [scrapePages_cons_empty sc fetch p ps acc hs hres]
        have hpr : pageRecords fetch p = [] := by
          unfold pageRecords
          rw [if_neg (by simp [hs]), hres]
          rfl
        refine ⟨?_, ?_⟩
        · simp only [(ih acc hrest).1, List.map_cons, List.flatten_cons, hpr,
            List.nil_append]
        · simp only [visitedPages, List.filterMap_cons]
          exact congrArg (p :: ·) (ih acc hrest).2
      · have hne : (resultBlocks (fetch p).doc).isEmpty = false := by
          cases hrb : resultBlocks (fetch p).doc with
          | nil => exact absurd hrb hres
          | cons x xs => rfl
        have hpb := processBlocks_ok (resultBlocks (fetch p).doc) acc (h p (by simp) hs)
        rw [scrapePages_cons_blocks sc fetch p ps acc _ hs hne hpb]
        have hpr : pageRecords fetch p =
            (resultBlocks (fetch p).doc).filterMap blockRecord := by
          unfold pageRecords
          rw [if_neg (by simp [hs])]
        refine ⟨?_, ?_⟩
        · simp only [(ih _ hrest).1, List.map_cons, List.flatten_cons, hpr,
            List.append_assoc]
        · simp only [visitedPages, List.filterMap_cons, List.filterMap_append]
          rw [show (List.filterMap _ (processBlocks (resultBlocks (fetch p).doc) acc).1) =
              visitedPages (processBlocks (resultBlocks (fetch p).doc) acc).1 from rfl,
            processBlocks_visited]
          exact congrArg (p :: ·) (by simpa [visitedPages] using (ih _ hrest).2)
    · rw [scrapePages_cons_fail sc fetch p ps acc hs]
      have hpr : pageRecords fetch p = [] := by
        unfold pageRecords
        rw [if_pos hs]
      refine ⟨?_, ?_⟩
      · simp only [(ih acc hrest).1, List.map_cons, List.flatten_cons, hpr,
          List.nil_append]
      · simp only [visitedPages, List.filterMap_cons]
        exact congrArg (p :: ·) (ih acc hrest).2

/-! ## Claim C8 -/

/-- C8, amended: provided no fetched result block triggers the
empty-address fault (a title-and-address block whose address text has
no token raises `IndexError` and aborts the whole run, see
`C8_counterexample`), `scrape_data` fetches exactly the page indices 1
through max_pages inclusive, in order with stride 1, never stops the
scan early — a failed status or a page with zero results only advances
to the next index — and returns the Records in discovery order: pages
in ascending order and, within a page, blocks in document order. -/
theorem C8_full_scan_discovery_order (sc : Scraper) (fetch : Int → Response)
    (h : ∀ p ∈ pageList sc.max_pages, (fetch p).status_code = 200 →
      ∀ b ∈ resultBlocks (fetch p).doc,
        (ClinicExtractor.extract b).2 ≠ Except.error PyExc.indexError) :
    visitedPages (sc.scrape_data fetch).1 =
      (List.range sc.max_pages.toNat).map (fun i => (i : Int) + 1) ∧
    (sc.scrape_data fetch).2 =
      Except.ok (((pageList sc.max_pages).map (pageRecords fetch)).flatten) := by
  have hmain := scrapePages_ok sc fetch (pageList sc.max_pages) [] h
  exact ⟨hmain.2, by unfold Scraper.scrape_data; rw [hmain.1, List.nil_append]⟩

/-- C8 counterexample: with `max_pages = 2` and every page serving one
block whose address text is whitespace-only, the run raises on page 1
and page 2 is never fetched — the scan does terminate early, so the
claim as frozen fails on faulting inputs. -/
theorem C8_counterexample :
    (Scraper.mk "b" "q" 2).scrape_data fetchCrash =
      ([Diag.statusLine 1 200], Except.error PyExc.indexError) ∧
    visitedPages [Diag.statusLine 1 200] = [1] ∧
    pageList 2 = [1, 2] :=
  ⟨by rfl, by rfl, by rfl⟩

/-- C8 witness: on the fault-free three-page sequence `fetch123` the
scan visits exactly pages 1, 2, 3 and accumulates the per-page records
in discovery order. -/
theorem C8_witness :
    visitedPages ((Scraper.mk "b" "q" 3).scrape_data fetch123).1 = [1, 2, 3] ∧
    ((Scraper.mk "b" "q" 3).scrape_data fetch123).2 =
      Except.ok (((pageList 3).map (pageRecords fetch123)).flatten) := by
  have h := C8_full_scan_discovery_order (Scraper.mk "b" "q" 3) fetch123 (by decide)
  exact ⟨by rw [h.1]; rfl, h.2⟩

/-! ## Claim C10 -/

/-- C10: with `max_pages` less than 1 the page range `1..max_pages` is
empty, so `scrape_data` issues no fetch at all (no status line is ever
printed, hence no visited page) and returns the empty Record list while
still reporting completion. -/
theorem C10_below_one_page (sc : Scraper) (fetch : Int → Response)
    (h : sc.max_pages < 1) :
    sc.scrape_data fetch = ([Diag.completed], Except.ok []) ∧
    visitedPages (sc.scrape_data fetch).1 = [] := by
  have hp : pageList sc.max_pages = [] := by
    unfold pageList
    rw [Int.toNat_of_nonpos (by omega)]
    rfl
  unfold Scraper.scrape_data
  rw [hp]
  exact ⟨rfl, rfl⟩

/-- C10 witness: a scraper configured with zero pages fetches nothing
and completes with the empty record list. -/
theorem C10_witness :
    ((Scraper.mk "b" "q" 0).scrape_data (fun _ => ⟨404, Forest.nil⟩) =
      ([Diag.completed], Except.ok [])) ∧
    (0 : Int) < 1 :=
  ⟨(C10_below_one_page (Scraper.mk "b" "q" 0) (fun _ => ⟨404, Forest.nil⟩) (by decide)).1,
    by decide⟩

/-! ## Supporting lemmas: CSV encode and parse are inverse -/

theorem needsQuote_false_elim {f : List Char} (h : needsQuote f = false) :
    ∀ c ∈ f, c ≠ ',' ∧ c ≠ '"' ∧ c ≠ '\r' ∧ c ≠ '\n' := by
  intro c hc
  have h2 := (List.any_eq_false.mp h) c hc
  simp only [Bool.or_eq_true, decide_eq_true_eq, not_or] at h2
  exact ⟨h2.1.1.1, h2.1.1.2, h2.1.2, h2.2⟩

theorem parseAux_sf_quote (rest : List Char) (fAcc : List Char) (rAcc : List String)
    (rows : List (List String)) :
    parseAux .sf ('"' :: rest) fAcc rAcc rows = parseAux .quo rest fAcc rAcc rows := by
  simp [parseAux]

theorem parseAux_sf_comma (rest : List Char) (fAcc : List Char) (rAcc : List String)
    (rows : List (List String)) :
    parseAux .sf (',' :: rest) fAcc rAcc rows =
      parseAux .sf rest [] (rAcc ++ [String.mk fAcc]) rows := by
  simp only [parseAux]
  rw [if_neg (by decide)]
  simp

theorem parseAux_sf_cr (rest : List Char) (fAcc : List Char) (rAcc : List String)
    (rows : List (List String)) :
    parseAux .sf ('\r' :: rest) fAcc rAcc rows =
      parseAux .nl rest [] [] (rows ++ [rAcc ++ [String.mk fAcc]]) := by
  simp only [parseAux]
  rw [if_neg (by decide), if_neg (by decide)]
  simp

theorem parseAux_sf_other (c : Char) (hq : c ≠ '"') (hc : c ≠ ',') (hr : c ≠ '\r')
    (hn : c ≠ '\n') (rest : List Char) (fAcc : List Char) (rAcc : List String)
    (rows : List (List String)) :
    parseAux .sf (c :: rest) fAcc rAcc rows =
      parseAux .unq rest (fAcc ++ [c]) rAcc rows := by
  simp only [parseAux, if_neg hq, if_neg hc, if_neg hr, if_neg hn]

theorem parseAux_unq_comma (rest : List Char) (fAcc : List Char) (rAcc : List String)
    (rows : List (List String)) :
    parseAux .unq (',' :: rest) fAcc rAcc rows =
      parseAux .sf rest [] (rAcc ++ [String.mk fAcc]) rows := by
  simp [parseAux]

theorem parseAux_unq_cr (rest : List Char) (fAcc : List Char) (rAcc : List String)
    (rows : List (List String)) :
    parseAux .unq ('\r' :: rest) fAcc rAcc rows =
      parseAux .nl rest [] [] (rows ++ [rAcc ++ [String.mk fAcc]]) := by
  simp only [parseAux]
  rw [if_neg (by decide)]
  simp

theorem parseAux_unq_other (c : Char) (hc : c ≠ ',') (hr : c ≠ '\r') (hn : c ≠ '\n')
    (rest : List Char) (fAcc : List Char) (rAcc : List String)
    (rows : List (List String)) :
    parseAux .unq (c :: rest) fAcc rAcc rows =
      parseAux .unq rest (fAcc ++ [c]) rAcc rows := by
  simp only [parseAux, if_neg hc, if_neg hr, if_neg hn]

theorem parseAux_quo_quote (rest : List Char) (fAcc : List Char) (rAcc : List String)
    (rows : List (List String)) :
    parseAux .quo ('"' :: rest) fAcc rAcc rows = parseAux .quoQ rest fAcc rAcc rows := by
  simp [parseAux]

theorem parseAux_quo_other (c : Char) (hq : c ≠ '"') (rest : List Char) (fAcc : List Char)
    (rAcc : List String) (rows : List (List String)) :
    parseAux .quo (c :: rest) fAcc rAcc rows =
      parseAux .quo rest (fAcc ++ [c]) rAcc rows := by
  simp only [parseAux, if_neg hq]

theorem parseAux_quoQ_quote (rest : List Char) (fAcc : List Char) (rAcc : List String)
    (rows : List (List String)) :
    parseAux .quoQ ('"' :: rest) fAcc rAcc rows =
      parseAux .quo rest (fAcc ++ ['"']) rAcc rows := by
  simp [parseAux]

theorem parseAux_quoQ_comma (rest : List Char) (fAcc : List Char) (rAcc : List String)
    (rows : List (List String)) :
    parseAux .quoQ (',' :: rest) fAcc rAcc rows =
      parseAux .sf rest [] (rAcc ++ [String.mk fAcc]) rows := by
  simp only [parseAux]
  rw [if_neg (by decide)]
  simp

theorem parseAux_quoQ_cr (rest : List Char) (fAcc : List Char) (rAcc : List String)
    (rows : List (List String)) :
    parseAux .quoQ ('\r' :: rest) fAcc rAcc rows =
      parseAux .nl rest [] [] (rows ++ [rAcc ++ [String.mk fAcc]]) := by
  simp only [parseAux]
  rw [if_neg (by decide), if_neg (by decide)]
  simp

theorem parseAux_nl_nl (rest : List Char) (fAcc : List Char) (rAcc : List String)
    (rows : List (List String)) :
    parseAux .nl ('\n' :: rest) fAcc rAcc rows = parseAux .sf rest [] [] rows := by
  simp [parseAux]

theorem parseAux_sf_nil (fAcc : List Char) (rows : List (List String)) :
    parseAux .sf [] fAcc [] rows = rows := rfl

theorem parseAux_unq_chars : ∀ (f : List Char),
    (∀ c ∈ f, c ≠ ',' ∧ c ≠ '"' ∧ c ≠ '\r' ∧ c ≠ '\n') →
    ∀ (rest fAcc : List Char) (rAcc : List String) (rows : List (List String)),
    parseAux .unq (f ++ rest) fAcc rAcc rows = parseAux .unq rest (fAcc ++ f) rAcc rows := by
  intro f
  induction f with
  | nil => intro _ rest fAcc rAcc rows; rw [List.nil_append, List.append_nil]
  | cons c f ih =>
    intro hf rest fAcc rAcc rows
    obtain ⟨h1, _, h3, h4⟩ := hf c (by simp)
    rw [List.cons_append, parseAux_unq_other c h1 h3 h4,
      ih (fun x hx => hf x (by simp [hx])) rest (fAcc ++ [c]) rAcc rows,
      List.append_assoc, List.singleton_append]

theorem parseAux_quo_esc : ∀ (f : List Char) (rest fAcc : List Char)
    (rAcc : List String) (rows : List (List String)),
    parseAux .quo (escQuo f ++ '"' :: rest) fAcc rAcc rows =
      parseAux .quoQ rest (fAcc ++ f) rAcc rows := by
  intro f
  induction f with
  | nil =>
    intro rest fAcc rAcc rows
    rw [show escQuo [] ++ '"' :: rest = '"' :: rest from rfl, parseAux_quo_quote,
      List.append_nil]
  | cons c f ih =>
    intro rest fAcc rAcc rows
    by_cases hc : c = '"'
    · subst hc
      rw [show escQuo ('"' :: f) = '"' :: '"' :: escQuo f from by simp [escQuo],
        List.cons_append, List.cons_append, parseAux_quo_quote, parseAux_quoQ_quote,
        ih rest (fAcc ++ ['"']) rAcc rows, List.append_assoc, List.singleton_append]
    · rw [show escQuo (c :: f) = c :: escQuo f from by simp [escQuo, hc],
        List.cons_append, parseAux_quo_other c hc,
        ih rest (fAcc ++ [c]) rAcc rows, List.append_assoc, List.singleton_append]

theorem parseAux_field_comma (f : String) (rest : List Char) (rAcc : List String)
    (rows : List (List String)) :
    parseAux .sf (encodeField f ++ ',' :: rest) [] rAcc rows =
      parseAux .sf rest [] (rAcc ++ [f]) rows := by
  by_cases hq : needsQuote f.toList = true
  · unfold encodeField
    rw [if_pos hq, List.cons_append, List.append_assoc, List.singleton_append,
      parseAux_sf_quote, parseAux_quo_esc f.toList (',' :: rest) [] rAcc rows,
      List.nil_append, parseAux_quoQ_comma]
    rfl
  · have hplain := needsQuote_false_elim (Bool.eq_false_iff.mpr hq)
    unfold encodeField
    rw [if_neg hq]
    cases hf : f.toList with
    | nil =>
      rw [List.nil_append, parseAux_sf_comma]
      have hfe : String.mk ([] : List Char) = f := by rw [← hf]; rfl
      rw [hfe]
    | cons c cs =>
      have hc := hplain c (by rw [hf]; simp)
      rw [List.cons_append,
        parseAux_sf_other c hc.2.1 hc.1 hc.2.2.1 hc.2.2.2,
        parseAux_unq_chars cs (fun x hx => hplain x (by rw [hf]; simp [hx]))
          (',' :: rest) ([] ++ [c]) rAcc rows,
        parseAux_unq_comma]
      have hfe : String.mk (([] ++ [c]) ++ cs) = f := by
        rw [List.nil_append, List.singleton_append, ← hf]
        rfl
      rw [hfe]

theorem parseAux_field_crlf (f : String) (rest : List Char) (rAcc : List String)
    (rows : List (List String)) :
    parseAux .sf (encodeField f ++ '\r' :: '\n' :: rest) [] rAcc rows =
      parseAux .sf rest [] [] (rows ++ [rAcc ++ [f]]) := by
  by_cases hq : needsQuote f.toList = true
  · unfold encodeField
    rw [if_pos hq, List.cons_append, List.append_assoc, List.singleton_append,
      parseAux_sf_quote, parseAux_quo_esc f.toList ('\r' :: '\n' :: rest) [] rAcc rows,
      List.nil_append, parseAux_quoQ_cr, parseAux_nl_nl]
    rfl
  · have hplain := needsQuote_false_elim (Bool.eq_false_iff.mpr hq)
    unfold encodeField
    rw [if_neg hq]
    cases hf : f.toList with
    | nil =>
      rw [List.nil_append, parseAux_sf_cr, parseAux_nl_nl]
      have hfe : String.mk ([] : List Char) = f := by rw [← hf]; rfl
      rw [hfe]
    | cons c cs =>
      have hc := hplain c (by rw [hf]; simp)
      rw [List.cons_append,
        parseAux_sf_other c hc.2.1 hc.1 hc.2.2.1 hc.2.2.2,
        parseAux_unq_chars cs (fun x hx => hplain x (by rw [hf]; simp [hx]))
          ('\r' :: '\n' :: rest) ([] ++ [c]) rAcc rows,
        parseAux_unq_cr, parseAux_nl_nl]
      have hfe : String.mk (([] ++ [c]) ++ cs) = f := by
        rw [List.nil_append, List.singleton_append, ← hf]
        rfl
      rw [hfe]

theorem joinComma_cons_cons (a b : List Char) (l : List (List Char)) :
    joinComma (a :: b :: l) = a ++ ',' :: joinComma (b :: l) := rfl

theorem parseAux_row : ∀ (r : List String), r ≠ [] →
    ∀ (rest : List Char) (rAcc : List String) (rows : List (List String)),
    parseAux .sf (encodeRow r ++ rest) [] rAcc rows =
      parseAux .sf rest [] [] (rows ++ [rAcc ++ r]) := by
  intro r
  induction r with
  | nil => intro h; exact absurd rfl h
  | cons f r ih =>
    intro _ rest rAcc rows
    cases r with
    | nil =>
      rw [show encodeRow [f] = encodeField f ++ ['\r', '\n'] from rfl, List.append_assoc,
        show (['\r', '\n'] : List Char) ++ rest = '\r' :: '\n' :: rest from rfl]
      exact parseAux_field_crlf f rest rAcc rows
    | cons g t =>
      have hjc : encodeRow (f :: g :: t) ++ rest =
          encodeField f ++ (',' :: (encodeRow (g :: t) ++ rest)) := by
        unfold encodeRow
        rw [List.map_cons, List.map_cons, joinComma_cons_cons]
        simp [List.append_assoc]
      rw [hjc, parseAux_field_comma f _ rAcc rows, ih (by simp) rest (rAcc ++ [f]) rows,
        List.append_assoc, List.singleton_append]

theorem parseAux_rows : ∀ (rows2 : List (List String)), (∀ r ∈ rows2, r ≠ []) →
    ∀ (rows : List (List String)),
    parseAux .sf ((rows2.map encodeRow).flatten) [] [] rows = rows ++ rows2 := by
  intro rows2
  induction rows2 with
  | nil => intro _ rows; simp [parseAux_sf_nil]
  | cons r rs ih =>
    intro h rows
    rw [List.map_cons, List.flatten_cons, parseAux_row r (h r (by simp)) _ [] rows,
      List.nil_append, ih (fun x hx => h x (by simp [hx])) (rows ++ [r]),
      List.append_assoc, List.singleton_append]

theorem parseCSV_writeCSV (rows : List (List String)) (h : ∀ r ∈ rows, r ≠ []) :
    parseCSV (writeCSV rows) = rows := by
  unfold parseCSV writeCSV
  rw [show (String.mk ((rows.map encodeRow).flatten)).toList =
      (rows.map encodeRow).flatten from rfl,
    parseAux_rows rows h [], List.nil_append]

/-! ## Claim C9 -/

/-- C9: writing any accumulated list of Records to the tabular output
(header row with the seven field names in order, one row per Record,
absent fields as empty cells, minimal quoting, CRLF terminators) and
re-reading the file yields exactly the header plus one row per Record
whose cells equal the Record's field values with absent fields read
back as empty cells. -/
theorem C9_csv_round_trip (cs : List Clinic) :
    parseCSV (writeRecords cs) = csvHeader :: cs.map clinicRow := by
  unfold writeRecords
  rw [parseCSV_writeCSV]
  intro r hr
  rcases List.mem_cons.mp hr with h1 | h2
  · subst h1
    simp [csvHeader]
  · obtain ⟨c, _, hcr⟩ := List.mem_map.mp h2
    rw [← hcr]
    simp [clinicRow]
